import Mathlib

/-!
# Verification of the ticket document layout / export engine

Shallow embedding, in Lean 4, of the document layout and pagination engine
of the ticket-management application (the `TicketPdfService` in
`src/unnamed/part_003`) together with the delimited-text export
(`TicketCsvExportService` in `src/unnamed/part_004`).

Embedding conventions:

* JavaScript numbers are embedded as exact rationals (`ℚ`); `Math.round x`
  is `⌊x + 1/2⌋`, which is what JS `Math.round` computes.
* JavaScript strings are embedded as `List Char` (one element per code
  point); slicing by index becomes `List.take` / `List.drop`.
* A font at a fixed size is embedded as its advance-width table, a function
  `Char → ℚ`; `font.widthOfTextAtSize(text, size)` (pdf-lib sums the glyph
  advance widths, no kerning) becomes the sum of that function over the
  characters of the text.
* Fallible / asynchronous operations (fetch, font and image embedding) are
  embedded as `Except` computations over an explicit outcome environment.
-/

set_option maxRecDepth 8000

namespace TicketPdf

/-- A column spec `{key, label, w}` as used by `buildListPdf` /
`fitColumnsToWidth` (`part_003`). -/
structure Col where
  key : String
  label : String
  w : ℚ
  deriving Repr, DecidableEq

/-- Sum of the column widths: `cols.reduce((a, c) => a + c.w, 0)`. -/
def colSum (cols : List Col) : ℚ := (cols.map Col.w).sum

/-- Mutation of the element returned by `cols.find(p)` in place: update the
first element satisfying `p`, leave the rest alone. -/
def updateFirst (p : Col → Bool) (f : Col → Col) : List Col → List Col
  | [] => []
  | c :: cs => bif p c then f c :: cs else c :: updateFirst p f cs

/-- The fixed base column sequence `colsBase` of `buildListPdf`
(`part_003` lines 127–135). -/
def colsBase : List Col :=
  [⟨"no", "No", 38⟩,
   ⟨"subject", "件名", 210⟩,
   ⟨"customerName", "顧客名", 95⟩,
   ⟨"assignee", "担当者", 70⟩,
   ⟨"status", "ステータス", 70⟩,
   ⟨"priority", "優先度", 50⟩,
   ⟨"createdAt", "作成日", 90⟩]

/-- Phase 1 of `fitColumnsToWidth` (`part_003` lines 310–319): shrink the
`subject` column by the overflow, but not below `minSubject = 120`. -/
def phase1 (cols : List Col) (targetWidth : ℚ) : List Col :=
  match cols.find? (fun c => c.key == "subject") with
  | none => cols
  | some subject =>
    let overflow := colSum cols - targetWidth
    if overflow > 0 then
      let minSubject : ℚ := 120
      let reducible := max 0 (subject.w - minSubject)
      let cut := min reducible overflow
      updateFirst (fun c => c.key == "subject")
        (fun c => { c with w := c.w - cut }) cols
    else cols

/-- The per-column minimum widths table of phase 2
(`part_003` lines 325–333), with the `?? 40` default for unknown keys. -/
def minW (key : String) : ℚ :=
  if key == "no" then 32
  else if key == "subject" then 110
  else if key == "customerName" then 70
  else if key == "assignee" then 55
  else if key == "status" then 60
  else if key == "priority" then 45
  else if key == "createdAt" then 70
  else 40

/-- Per-column reducible slack: `Math.max(0, c.w - (mins[c.key] ?? 40))`. -/
def reducibleOf (c : Col) : ℚ := max 0 (c.w - minW c.key)

/-- Phase 2 of `fitColumnsToWidth` (`part_003` lines 322–354): shrink every
column in proportion to its slack above its minimum, then re-apply the
subject squeeze (floor 110) on any remainder. -/
def phase2 (cols : List Col) (targetWidth : ℚ) : List Col :=
  let overflow2 := colSum cols - targetWidth
  if overflow2 > 0 then
    let totalReducible := (cols.map reducibleOf).sum
    let cols2 :=
      if totalReducible > 0 then
        let need := min overflow2 totalReducible
        cols.map (fun c =>
          if reducibleOf c ≤ 0 then c
          else { c with w := max (minW c.key) (c.w - reducibleOf c / totalReducible * need) })
      else cols
    let overflow2b := colSum cols2 - targetWidth
    if overflow2b > 0 then
      match cols2.find? (fun c => c.key == "subject") with
      | some _ =>
        updateFirst (fun c => c.key == "subject")
          (fun c => { c with w := max 110 (c.w - overflow2b) }) cols2
      | none => cols2
    else cols2
  else cols

/-- JavaScript `Math.round`: round half toward positive infinity. -/
def jsRound (x : ℚ) : ℚ := (⌊x + 1/2⌋ : ℤ)

/-- Phase 3 of `fitColumnsToWidth` (`part_003` lines 356–363): round every
width, then absorb any drift into the subject column (or the first column
when no subject column exists), clamped at 80. -/
def phase3 (cols : List Col) (targetWidth : ℚ) : List Col :=
  let cols3 := cols.map fun c => { c with w := jsRound c.w }
  let diff := colSum cols3 - targetWidth
  if diff = 0 then cols3
  else
    match cols3.find? (fun c => c.key == "subject"), cols3 with
    | some _, _ =>
      updateFirst (fun c => c.key == "subject")
        (fun c => { c with w := max 80 (c.w - diff) }) cols3
    | none, [] => []
    | none, c :: cs => { c with w := max 80 (c.w - diff) } :: cs

/-- `fitColumnsToWidth` (`part_003` lines 303–366).  The initial
`base.map(c => ({...c}))` copy is the identity in a pure embedding. -/
def fitColumnsToWidth (base : List Col) (targetWidth : ℚ) : List Col :=
  phase3 (phase2 (phase1 base targetWidth) targetWidth) targetWidth

/-- The `subject` column width of a column set (0 when absent). -/
def subjectW (cols : List Col) : ℚ :=
  ((cols.find? (fun c => c.key == "subject")).map Col.w).getD 0

/-- ISO A4 width in user units (`A4.w = 595.28`, `part_003` line 114). -/
def A4w : ℚ := 59528/100

/-- ISO A4 height in user units (`A4.h = 841.89`, `part_003` line 114). -/
def A4h : ℚ := 84189/100

/-- Usable width of a list-mode page: `A4.w - marginL - marginR` with the
list margins `marginL = marginR = 48` (`part_003` lines 117–118, 137). -/
def availableW : ℚ := A4w - 48 - 48

/-- The column set actually used by `buildListPdf`:
`fitColumnsToWidth(colsBase, availableW)` (`part_003` line 138). -/
def listCols : List Col := fitColumnsToWidth colsBase availableW

/-! ## Text metrics and the text layout engine (`part_003` lines 860–906) -/

/-- Width of a glyph run: `font.widthOfTextAtSize(text, size)`.  A font at a
fixed size is embedded as its advance-width table `Char → ℚ`; pdf-lib sums
the per-glyph advance widths (no kerning), so the width of a string is the
sum of the table over its characters. -/
def widthOf (font : Char → ℚ) (s : List Char) : ℚ := (s.map font).sum

/-- The ellipsis character `'…'` used by `clipToWidth`. -/
def ell : Char := '…'

/-- A sample font for concrete witnesses: every glyph one unit wide. -/
def wOne : Char → ℚ := fun _ => 1

/-- The binary-search loop of `clipToWidth` (`part_003` lines 899–904):
`while (lo < hi) { mid = ceil((lo+hi)/2); if (width(s.slice(0,mid)+…) ≤ maxWidth)
lo = mid else hi = mid - 1 }`.  The loop strictly shrinks `hi - lo`, so any
`fuel ≥ hi - lo` reproduces it exactly. -/
def clipGo (s : List Char) (font : Char → ℚ) (maxWidth : ℚ) :
    ℕ → ℕ → ℕ → ℕ
  | lo, _, 0 => lo
  | lo, hi, fuel+1 =>
    if lo < hi then
      let mid := (lo + hi + 1) / 2
      if widthOf font (s.take mid ++ [ell]) ≤ maxWidth then
        clipGo s font maxWidth mid hi fuel
      else
        clipGo s font maxWidth lo (mid - 1) fuel
    else lo

/-- `clipToWidth` (`part_003` lines 890–906): return the string unchanged
when empty or already fitting, otherwise binary-search the longest prefix
whose width together with `…` fits, and append the ellipsis. -/
def clipToWidth (text : List Char) (font : Char → ℚ) (maxWidth : ℚ) : List Char :=
  if text = [] then []
  else if widthOf font text ≤ maxWidth then text
  else text.take (clipGo text font maxWidth 0 text.length text.length) ++ [ell]

/-- `src.replace(/\r\n/g, '\n')`: left-to-right replacement of CRLF pairs. -/
def normNl : List Char → List Char
  | [] => []
  | [c] => [c]
  | c1 :: c2 :: rest =>
    if c1 = '\r' ∧ c2 = '\n' then '\n' :: normNl rest
    else c1 :: normNl (c2 :: rest)

/-- JavaScript `String.prototype.split('\n')` on a list of characters:
the empty string splits to `[""]`, and every `'\n'` starts a new piece. -/
def splitNl : List Char → List (List Char)
  | [] => [[]]
  | c :: rest =>
    if c = '\n' then [] :: splitNl rest
    else
      match splitNl rest with
      | [] => [[c]]
      | l :: ls => (c :: l) :: ls

/-- One step of the greedy character-accumulation loop of `wrapText`
(`part_003` lines 873–882): state is `(out, line)`. -/
def wrapStep (font : Char → ℚ) (maxWidth : ℚ)
    (st : List (List Char) × List Char) (ch : Char) : List (List Char) × List Char :=
  let next := st.2 ++ [ch]
  if widthOf font next ≤ maxWidth then (st.1, next)
  else (if st.2 = [] then st.1 else st.1 ++ [st.2], [ch])

/-- The per-paragraph body of `wrapText`: fold the greedy loop over the
paragraph, then push the final line when nonempty (`if (line) out.push`). -/
def wrapPara (para : List Char) (font : Char → ℚ) (maxWidth : ℚ) :
    List (List Char) :=
  let fin := para.foldl (wrapStep font maxWidth) ([], [])
  if fin.2 = [] then fin.1 else fin.1 ++ [fin.2]

/-- `wrapText` (`part_003` lines 860–887): empty input gives `['']`;
otherwise split into paragraphs (CRLF normalized), an empty paragraph
contributes one empty line, and every other paragraph is wrapped greedily
character by character. -/
def wrapText (text : List Char) (font : Char → ℚ) (maxWidth : ℚ) :
    List (List Char) :=
  if text = [] then [[]]
  else
    ((splitNl (normNl text)).map fun para =>
      if para = [] then [[]] else wrapPara para font maxWidth).flatten

/-! ## Ticket records and the two document layouts -/

/-- A ticket record (`Ticket` in `ticket-store.service.ts`): the renderable
unit.  `status`/`priority` are closed string unions in the source and are
embedded as their string values; `assignee` is optional. -/
structure Ticket where
  no : ℤ
  subject : List Char
  body : List Char
  customerName : List Char
  status : List Char
  priority : List Char
  assignee : Option (List Char)
  createdAt : List Char
  updatedAt : List Char
  deriving Repr, DecidableEq

/-- JavaScript `String(n)` for an integer-valued number. -/
def intToChars (n : ℤ) : List Char := (toString n).toList

/-- The `values[c.key] ?? ''` lookup of `buildListPdf`
(`part_003` lines 250–267): the cell text of a ticket under a column key. -/
def listCellValue (t : Ticket) (key : String) : List Char :=
  if key == "no" then intToChars t.no
  else if key == "subject" then t.subject
  else if key == "customerName" then t.customerName
  else if key == "assignee" then t.assignee.getD []
  else if key == "status" then t.status
  else if key == "priority" then t.priority
  else if key == "createdAt" then t.createdAt
  else []

/-- One table row as drawn: each cell clipped to `c.w - 8`
(`part_003` line 268). -/
def listRowCells (font : Char → ℚ) (t : Ticket) : List (List Char) :=
  listCols.map fun c => clipToWidth (listCellValue t c.key) font (c.w - 8)

/-- List-mode row height (`rowH = 18`, `part_003` line 123). -/
def listRowH : ℚ := 18

/-- List-mode bottom margin (`marginBottom = 52`, `part_003` line 120). -/
def listMarginBottom : ℚ := 52

/-- Vertical cursor position after `newPage()` places the header chrome:
`A4.h - marginTop - headerH - 12` (`part_003` lines 150, 199, 232). -/
def listStartY : ℚ := A4h - 48 - 72 - 12

/-- A list-mode page: its drawn rows (cells as clipped texts) and the
right-hand footer text stamped in the second pass. -/
structure ListPage where
  rows : List (List (List Char))
  footerRight : String
  deriving Repr, DecidableEq

/-- The pagination loop of `buildListPdf` (`part_003` lines 236–280): before
each row, start a new page when `y - rowH < marginBottom`; a new page resets
the cursor to `listStartY`; after the loop the current page is kept. -/
def buildListRowsGo (font : Char → ℚ) :
    List Ticket → ℚ → List (List (List Char)) → List (List (List (List Char))) →
      List (List (List (List Char)))
  | [], _, cur, acc => acc ++ [cur]
  | t :: ts, y, cur, acc =>
    if y - listRowH < listMarginBottom then
      buildListRowsGo font ts (listStartY - listRowH) [listRowCells font t] (acc ++ [cur])
    else
      buildListRowsGo font ts (y - listRowH) (cur ++ [listRowCells font t]) acc

/-- The rows of each page of a list-mode document: `newPage()` is called
once before the loop, so there is always at least one page. -/
def buildListPages (font : Char → ℚ) (tickets : List Ticket) :
    List (List (List (List Char))) :=
  buildListRowsGo font tickets listStartY [] []

/-- `buildListPdf` (`part_003` lines 102–294), reduced to its pages: build
all pages, then stamp the footer `page ${i + 1} / ${totalPages}` on every
page (`part_003` lines 283–293).  Header chrome, rules, logo and stamp are
drawing-only and create no pages, so they are not modelled. -/
def buildListPdf (font : Char → ℚ) (tickets : List Ticket) : List ListPage :=
  let pages := buildListPages font tickets
  let totalPages := pages.length
  pages.enum.map fun p =>
    { rows := p.2
      footerRight := "page " ++ toString (p.1 + 1) ++ " / " ++ toString totalPages }

/-- Top of the body card in detail mode:
`A4.h - marginTop(46) - 72 - (metaCardH(170) + 18)` (`part_003` lines
397, 481, 554, 557). -/
def detailBodyTop : ℚ := A4h - 46 - 72 - (170 + 18)

/-- Height of the body card: `max(380, bodyTop - marginBottom)` with
`marginBottom = 56` (`part_003` line 558). -/
def detailBodyH : ℚ := max 380 (detailBodyTop - 56)

/-- First body-text baseline: `bodyTop - 44` (`part_003` line 570). -/
def detailInnerTop : ℚ := detailBodyTop - 44

/-- Hard vertical clip for body text: `bodyTop - bodyH + 16`
(`part_003` line 571). -/
def detailInnerBottom : ℚ := detailBodyTop - detailBodyH + 16

/-- Width available for body text: `(A4.w - 52 - 52) - 32`
(`part_003` lines 387, 569). -/
def detailInnerW : ℚ := A4w - 52 - 52 - 32

/-- The body-drawing loop (`part_003` lines 579–589): draw wrapped lines
downward by `lineH = 16`, silently truncating once `yy < innerBottom`. -/
def drawBodyLines : List (List Char) → ℚ → List (List Char)
  | [], _ => []
  | l :: ls, yy =>
    if yy < detailInnerBottom then [] else l :: drawBodyLines ls (yy - 16)

/-- The body lines actually drawn on one detail page. -/
def detailShownBody (font : Char → ℚ) (t : Ticket) : List (List Char) :=
  drawBodyLines (wrapText t.body font detailInnerW) detailInnerTop

/-- A detail-mode page: the drawn body lines and the right footer text. -/
structure DetailPage where
  bodyLines : List (List Char)
  footerRight : String
  deriving Repr, DecidableEq

/-- `buildDetailPdf` (`part_003` lines 371–613), reduced to its pages: one
page is added per record, unconditionally (`for index ...; pdfDoc.addPage`),
with footer `page ${index + 1} / ${totalPages}` where
`totalPages = tickets.length`.  Header bar, pills, cards, logo and stamp are
drawing-only and create no pages, so they are not modelled. -/
def buildDetailPdf (font : Char → ℚ) (tickets : List Ticket) : List DetailPage :=
  tickets.enum.map fun p =>
    { bodyLines := detailShownBody font p.2
      footerRight := "page " ++ toString (p.1 + 1) ++ " / " ++ toString tickets.length }

/-! ## Asset loading (`part_003` lines 923–968) -/

/-- Outcome of one `fetch` (resolved body bytes, or any failure: network
error or non-ok status). -/
inductive FetchOutcome where
  | ok (bytes : List ℕ)
  | fail
  deriving Repr, DecidableEq

/-- An embedded font: the built-in `StandardFonts.Helvetica` fallback or a
custom TTF embedded from fetched bytes. -/
inductive FontHandle where
  | helvetica
  | custom (bytes : List ℕ)
  deriving Repr, DecidableEq

/-- An embedded image (`embedPng` / `embedJpg` result). -/
inductive ImageHandle where
  | png (bytes : List ℕ)
  | jpg (bytes : List ℕ)
  deriving Repr, DecidableEq

/-- The external world of one build: fetch outcomes per URL, which byte
strings the font/image decoders accept, and the advance-width table of each
embedded font. -/
structure AssetEnv where
  fetch : String → FetchOutcome
  ttfOk : List ℕ → Bool
  pngOk : List ℕ → Bool
  jpgOk : List ℕ → Bool
  metrics : FontHandle → Char → ℚ

/-- `normalizeUrl` (`part_003` lines 923–927): absolute URLs pass through,
bare paths are rooted at `/`. -/
def normalizeUrl (url : String) : String :=
  if url.startsWith "http://" ∨ url.startsWith "https://" then url
  else if url.startsWith "/" then url
  else "/" ++ url

/-- `normalizeUrlOrNull` (`part_003` lines 929–931); note JS truthiness:
the empty string is falsy and also maps to `null`. -/
def normalizeUrlOrNull : Option String → Option String
  | none => none
  | some u => if u = "" then none else some (normalizeUrl u)

/-- `fetchArrayBuffer` (`part_003` lines 963–968): throws on any fetch
failure or non-ok response. -/
def fetchArrayBuffer (env : AssetEnv) (url : String) : Except String (List ℕ) :=
  match env.fetch url with
  | .ok b => .ok b
  | .fail => .error ("Failed to fetch: " ++ url)

/-- `tryLoadTtf` (`part_003` lines 933–947): try fetching and embedding the
TTF; on any thrown error, catch and embed the standard Helvetica font
(which never fails).  The result is always `Except.ok`. -/
def tryLoadTtf (env : AssetEnv) (url : String) : Except String FontHandle :=
  match (do
    let buf ← fetchArrayBuffer env url
    if env.ttfOk buf then pure (FontHandle.custom buf)
    else Except.error "embedFont" : Except String FontHandle) with
  | .ok f => .ok f
  | .error _ => .ok FontHandle.helvetica

/-- `tryLoadImage` (`part_003` lines 949–961): `null` URL gives `null`;
otherwise try `embedPng`, then `embedJpg`; any remaining error is caught
and absorbed into `null`.  The result is always `Except.ok`. -/
def tryLoadImage (env : AssetEnv) (url : Option String) :
    Except String (Option ImageHandle) :=
  match url with
  | none => .ok none
  | some u =>
    match (do
      let buf ← fetchArrayBuffer env u
      if env.pngOk buf then pure (ImageHandle.png buf)
      else if env.jpgOk buf then pure (ImageHandle.jpg buf)
      else Except.error "embedJpg" : Except String ImageHandle) with
    | .ok i => .ok (some i)
    | .error _ => .ok none

/-- The failure modes of the font load: fetch failure or malformed bytes. -/
def fontLoadFails (env : AssetEnv) (url : String) : Bool :=
  match env.fetch url with
  | .fail => true
  | .ok b => !env.ttfOk b

/-- The failure modes of an image load: no URL, fetch failure, or bytes
that neither decoder accepts. -/
def imageLoadFails (env : AssetEnv) (url : Option String) : Bool :=
  match url with
  | none => true
  | some u =>
    match env.fetch u with
    | .fail => true
    | .ok b => !env.pngOk b && !env.jpgOk b

/-! ## Document serialization and the download entry points -/

/-- Modelled from the spec: the binary serialization of the composed pages
is performed by `pdf-lib`'s `PDFDocument.save()`, an external dependency
whose code is not part of this repository.  Per the spec the Document
Builder "serializes the finished page sequence into a single binary
document"; a PDF byte stream always begins with the `%PDF-` header line,
followed here by one payload block per page. -/
def pdfSave (pagePayloads : List (List ℕ)) : List ℕ :=
  ("%PDF-1.7".toList.map Char.toNat) ++ pagePayloads.flatten

/-- Byte payload of one list page: its drawn texts. -/
def serializeListPage (p : ListPage) : List ℕ :=
  (p.rows.flatten.flatten.map Char.toNat) ++ (p.footerRight.toList.map Char.toNat)

/-- Byte payload of one detail page: its drawn texts. -/
def serializeDetailPage (p : DetailPage) : List ℕ :=
  (p.bodyLines.flatten.map Char.toNat) ++ (p.footerRight.toList.map Char.toNat)

/-- The layout mode of `TicketPdfOptions.layout`. -/
inductive Layout where
  | list
  | detail
  deriving Repr, DecidableEq

/-- The string form of a layout mode, as used in default filenames. -/
def layoutStr : Layout → String
  | .list => "list"
  | .detail => "detail"

/-- `TicketPdfOptions` (`part_003` lines 13–37): every field optional. -/
structure TicketPdfOptions where
  appTitle : Option String := none
  filename : Option String := none
  layout : Option Layout := none
  title : Option String := none
  fontUrl : Option String := none
  logoUrl : Option String := none
  stampUrl : Option String := none
  deriving Repr, DecidableEq

/-- The filename chosen by `downloadTicketsPdf` (`part_003` lines 49–51):
`opts.filename ?? \x60tickets-${date}-${layout}.pdf\x60` where `date` is
`new Date().toISOString().slice(0, 10)`, passed here as `isoDate`. -/
def ticketsPdfFilename (opts : TicketPdfOptions) (isoDate : String) : String :=
  match opts.filename with
  | some f => f
  | none => "tickets-" ++ isoDate ++ "-" ++ layoutStr (opts.layout.getD .list) ++ ".pdf"

/-- The filename chosen by `downloadTicketPdf` (`part_003` lines 92–94):
`opts.filename ?? \x60ticket-${no || 'x'}-${date}.pdf\x60`. -/
def ticketPdfFilename (t : Ticket) (opts : TicketPdfOptions) (isoDate : String) : String :=
  match opts.filename with
  | some f => f
  | none =>
    let no := (intToChars t.no).asString
    "ticket-" ++ (if no = "" then "x" else no) ++ "-" ++ isoDate ++ ".pdf"

/-- `downloadTicketsPdf` (`part_003` lines 48–82): choose layout and
filename, load the font with fallback, build the selected layout and
serialize.  The current date enters only through `isoDate`; the returned
pair is (suggested filename, output byte stream).  The logo and stamp
images are loaded through the same never-throwing `tryLoadImage` (modelled
separately) and are drawing-only: they create no pages and do not affect
pagination, so they do not appear in this page model. -/
def downloadTicketsPdf (env : AssetEnv) (tickets : List Ticket)
    (opts : TicketPdfOptions) (isoDate : String) : String × List ℕ :=
  let layout := opts.layout.getD .list
  let filename := ticketsPdfFilename opts isoDate
  let fontUrl := normalizeUrl (opts.fontUrl.getD "/assets/fonts/NotoSansJP-Regular.ttf")
  let font := match tryLoadTtf env fontUrl with
    | .ok f => f
    | .error _ => FontHandle.helvetica
  let fw := env.metrics font
  let bytes := match layout with
    | .list => pdfSave ((buildListPdf fw tickets).map serializeListPage)
    | .detail => pdfSave ((buildDetailPdf fw tickets).map serializeDetailPage)
  (filename, bytes)

/-- `downloadTicketPdf` (`part_003` lines 91–97): fix the filename to the
single-ticket convention and delegate with `layout: 'detail'`. -/
def downloadTicketPdf (env : AssetEnv) (t : Ticket) (opts : TicketPdfOptions)
    (isoDate : String) : String × List ℕ :=
  downloadTicketsPdf env [t]
    { opts with filename := some (ticketPdfFilename t opts isoDate),
                layout := some .detail } isoDate

/-! ## Delimited-text export (`part_004` lines 1–63) -/

/-- `csvEscape` (`part_004` lines 15–20): double every quote; wrap in
quotes when the value contains a quote, comma, CR or LF. -/
def csvEscape (v : List Char) : List Char :=
  let needQuote := v.any fun c => (c == '"') || (c == ',') || (c == '\r') || (c == '\n')
  let escaped := v.flatMap fun c => if c = '"' then ['"', '"'] else [c]
  if needQuote then '"' :: (escaped ++ ['"']) else escaped

/-- `toCsv` (`part_004` lines 22–24): escape each field, join fields with
`,` and rows with CRLF. -/
def toCsv (rows : List (List (List Char))) : List Char :=
  List.intercalate ['\r', '\n'] (rows.map fun r => List.intercalate [','] (r.map csvEscape))

/-- JavaScript `String.prototype.trim()`. -/
def jsTrim (s : List Char) : List Char :=
  ((s.dropWhile Char.isWhitespace).reverse.dropWhile Char.isWhitespace).reverse

/-- The column table of `TicketCsvExportService` (`part_004` lines 41–50),
in source order: header string and field accessor. -/
def csvCols : List (String × (Ticket → List Char)) :=
  [("no", fun t => intToChars t.no),
   ("createdAt", fun t => t.createdAt),
   ("subject", fun t => t.subject),
   ("status", fun t => t.status),
   ("priority", fun t => t.priority),
   ("assignee", fun t => jsTrim (t.assignee.getD [])),
   ("customerName", fun t => t.customerName),
   ("updatedAt", fun t => t.updatedAt)]

/-- The UTF-8 byte-order marker prefixed by `downloadText`
(`part_004` line 28). -/
def bom : Char := '﻿'

/-- The full text content handed to the download blob by
`downloadTickets` + `downloadText`: BOM, then the header row and one row
per ticket (`part_004` lines 26–37, 52–62). -/
def csvExportContent (tickets : List Ticket) : List Char :=
  bom :: toCsv ((csvCols.map fun c => c.1.toList) ::
    tickets.map fun t => csvCols.map fun c => c.2 t)

/-- The quote-on-special-character escaping rule in the spec's words: the
field is wrapped in quotes exactly when it contains a quote, comma, or line
break, with quote characters doubled; otherwise it is emitted unchanged. -/
def csvEscapeSpec (v : List Char) : List Char :=
  if v.any (fun c => (c == '"') || (c == ',') || (c == '\r') || (c == '\n')) then
    '"' :: ((v.flatMap fun c => if c = '"' then ['"', '"'] else [c]) ++ ['"'])
  else v

/-- One record's export line in the spec's words, with the field order
amended to the code's order: identifier, created-at, subject, status,
priority, assignee (trimmed), customer, updated-at. -/
def csvRowSpec (t : Ticket) : List Char :=
  List.intercalate [','] ([intToChars t.no, t.createdAt, t.subject, t.status,
    t.priority, jsTrim (t.assignee.getD []), t.customerName, t.updatedAt].map csvEscapeSpec)

/-- The header line of the export, written out. -/
def csvHeaderLine : List Char :=
  "no,createdAt,subject,status,priority,assignee,customerName,updatedAt".toList

/-! ## Concrete sample values for witnesses and counterexamples -/

/-- A sample ticket with pairwise distinct printable fields. -/
def sampleTicket : Ticket :=
  ⟨7, "S".toList, "B".toList, "CU".toList, "ST".toList, "PR".toList,
   some "A".toList, "CR".toList, "UP".toList⟩

/-- Twelve records, as in the spec's end-to-end scenario A. -/
def sample12 : List Ticket := List.replicate 12 sampleTicket

/-- An environment in which every fetch fails and no bytes decode. -/
def failEnv : AssetEnv :=
  { fetch := fun _ => .fail
    ttfOk := fun _ => false
    pngOk := fun _ => false
    jpgOk := fun _ => false
    metrics := fun _ => wOne }

/-! ## Evaluation lemmas for the fixed base sequence -/

/-- The seven-column family with the base keys/labels and arbitrary widths;
`colsBase` is `colsW 38 210 95 70 70 50 90`. -/
def colsW (w1 w2 w3 w4 w5 w6 w7 : ℚ) : List Col :=
  [⟨"no", "No", w1⟩,
   ⟨"subject", "件名", w2⟩,
   ⟨"customerName", "顧客名", w3⟩,
   ⟨"assignee", "担当者", w4⟩,
   ⟨"status", "ステータス", w5⟩,
   ⟨"priority", "優先度", w6⟩,
   ⟨"createdAt", "作成日", w7⟩]

lemma colsBase_eq_colsW : colsBase = colsW 38 210 95 70 70 50 90 := rfl

lemma colSum_colsW (w1 w2 w3 w4 w5 w6 w7 : ℚ) :
    colSum (colsW w1 w2 w3 w4 w5 w6 w7) = w1 + w2 + w3 + w4 + w5 + w6 + w7 := by
  simp [colSum, colsW]; ring

lemma colsBase_sum : colSum colsBase = 623 := by
  rw [colsBase_eq_colsW, colSum_colsW]; norm_num

lemma jsRound_le (x : ℚ) : jsRound x ≤ x + 1/2 := by
  simpa [jsRound] using Int.floor_le (x + 1/2)

lemma lt_jsRound (x : ℚ) : x - 1/2 < jsRound x := by
  have h := Int.lt_floor_add_one (x + 1/2)
  simp only [jsRound]
  linarith

lemma jsRound_intCast (n : ℤ) : jsRound (n : ℚ) = n := by
  have h : ⌊(n : ℚ) + 1/2⌋ = n := by
    rw [Int.floor_eq_iff]
    have h2 : (0:ℚ) < 1/2 := by norm_num
    have h3 : (1:ℚ)/2 < 1 := by norm_num
    exact ⟨by linarith, by linarith⟩
  simp only [jsRound, h]

lemma find_subject_colsBase :
    colsBase.find? (fun c => c.key == "subject") = some ⟨"subject", "件名", 210⟩ := by
  simp [colsBase, List.find?]

lemma phase1_colsBase_no_overflow (t : ℚ) (h : 623 ≤ t) :
    phase1 colsBase t = colsBase := by
  simp only [phase1, find_subject_colsBase, colsBase_sum]
  rw [if_neg (by linarith)]

lemma phase1_colsBase_overflow (t : ℚ) (h : t < 623) :
    phase1 colsBase t = colsW 38 (210 - min 90 (623 - t)) 95 70 70 50 90 := by
  simp only [phase1, find_subject_colsBase, colsBase_sum]
  rw [if_pos (by linarith)]
  simp [updateFirst, colsBase, colsW]
  norm_num

lemma phase2_skip (cols : List Col) (t : ℚ) (h : colSum cols ≤ t) :
    phase2 cols t = cols := by
  simp only [phase2]
  rw [if_neg (by linarith)]

/-! Evaluation of `minW` and `reducibleOf` at the concrete base columns. -/

lemma minW_no : minW "no" = 32 := by simp [minW]

lemma minW_subject : minW "subject" = 110 := by simp [minW]

lemma minW_customerName : minW "customerName" = 70 := by simp [minW]

lemma minW_assignee : minW "assignee" = 55 := by simp [minW]

lemma minW_status : minW "status" = 60 := by simp [minW]

lemma minW_priority : minW "priority" = 45 := by simp [minW]

lemma minW_createdAt : minW "createdAt" = 70 := by simp [minW]

lemma red_no : reducibleOf ⟨"no", "No", 38⟩ = 6 := by
  rw [reducibleOf, minW_no]; norm_num [max_def]

lemma red_subjC : reducibleOf ⟨"subject", "件名", 120⟩ = 10 := by
  rw [reducibleOf, minW_subject]; norm_num [max_def]

lemma red_customerName : reducibleOf ⟨"customerName", "顧客名", 95⟩ = 25 := by
  rw [reducibleOf, minW_customerName]; norm_num [max_def]

lemma red_assignee : reducibleOf ⟨"assignee", "担当者", 70⟩ = 15 := by
  rw [reducibleOf, minW_assignee]; norm_num [max_def]

lemma red_status : reducibleOf ⟨"status", "ステータス", 70⟩ = 10 := by
  rw [reducibleOf, minW_status]; norm_num [max_def]

lemma red_priority : reducibleOf ⟨"priority", "優先度", 50⟩ = 5 := by
  rw [reducibleOf, minW_priority]; norm_num [max_def]

lemma red_createdAt : reducibleOf ⟨"createdAt", "作成日", 90⟩ = 20 := by
  rw [reducibleOf, minW_createdAt]; norm_num [max_def]

lemma redsum_colsC : ((colsW 38 120 95 70 70 50 90).map reducibleOf).sum = 91 := by
  simp only [colsW, List.map, red_no, red_subjC, red_customerName, red_assignee,
    red_status, red_priority, red_createdAt, List.sum_cons, List.sum_nil]
  norm_num

lemma phase2_colsC (t : ℚ) (h1 : 442 ≤ t) (h2 : t < 533) :
    phase2 (colsW 38 120 95 70 70 50 90) t =
      colsW (38 - 6/91*(533-t)) (120 - 10/91*(533-t)) (95 - 25/91*(533-t))
        (70 - 15/91*(533-t)) (70 - 10/91*(533-t)) (50 - 5/91*(533-t))
        (90 - 20/91*(533-t)) := by
  have hsum : colSum (colsW 38 120 95 70 70 50 90) = 533 := by
    rw [colSum_colsW]; norm_num
  have hmin : min (533 - t) (91:ℚ) = 533 - t := min_eq_left (by linarith)
  have c6 : ¬ ((6:ℚ) ≤ 0) := by norm_num
  have c10 : ¬ ((10:ℚ) ≤ 0) := by norm_num
  have c25 : ¬ ((25:ℚ) ≤ 0) := by norm_num
  have c15 : ¬ ((15:ℚ) ≤ 0) := by norm_num
  have c5 : ¬ ((5:ℚ) ≤ 0) := by norm_num
  have c20 : ¬ ((20:ℚ) ≤ 0) := by norm_num
  have m1 : max (32:ℚ) (38 - 6/91*(533-t)) = 38 - 6/91*(533-t) :=
    max_eq_right (by linarith)
  have m2 : max (110:ℚ) (120 - 10/91*(533-t)) = 120 - 10/91*(533-t) :=
    max_eq_right (by linarith)
  have m3 : max (70:ℚ) (95 - 25/91*(533-t)) = 95 - 25/91*(533-t) :=
    max_eq_right (by linarith)
  have m4 : max (55:ℚ) (70 - 15/91*(533-t)) = 70 - 15/91*(533-t) :=
    max_eq_right (by linarith)
  have m5 : max (60:ℚ) (70 - 10/91*(533-t)) = 70 - 10/91*(533-t) :=
    max_eq_right (by linarith)
  have m6 : max (45:ℚ) (50 - 5/91*(533-t)) = 50 - 5/91*(533-t) :=
    max_eq_right (by linarith)
  have m7 : max (70:ℚ) (90 - 20/91*(533-t)) = 90 - 20/91*(533-t) :=
    max_eq_right (by linarith)
  have hmap : (colsW 38 120 95 70 70 50 90).map (fun c =>
        if reducibleOf c ≤ 0 then c
        else { c with w := (max (minW c.key)
          (c.w - reducibleOf c / ((colsW 38 120 95 70 70 50 90).map reducibleOf).sum
            * min (colSum (colsW 38 120 95 70 70 50 90) - t)
                (((colsW 38 120 95 70 70 50 90).map reducibleOf).sum))) }) =
      colsW (38 - 6/91*(533-t)) (120 - 10/91*(533-t)) (95 - 25/91*(533-t))
        (70 - 15/91*(533-t)) (70 - 10/91*(533-t)) (50 - 5/91*(533-t))
        (90 - 20/91*(533-t)) := by
    rw [hsum, redsum_colsC]
    simp only [colsW, List.map, red_no, red_subjC, red_customerName, red_assignee,
      red_status, red_priority, red_createdAt, minW_no, minW_subject,
      minW_customerName, minW_assignee, minW_status, minW_priority, minW_createdAt,
      hmin, if_neg c6, if_neg c10, if_neg c25, if_neg c15, if_neg c5, if_neg c20]
    simp only [List.cons.injEq, Col.mk.injEq, and_true, true_and]
    exact ⟨m1, m2, m3, m4, m5, m6, m7⟩
  simp only [phase2]
  rw [if_pos (show colSum (colsW 38 120 95 70 70 50 90) - t > 0 by rw [hsum]; linarith)]
  rw [if_pos (show ((colsW 38 120 95 70 70 50 90).map reducibleOf).sum > 0 by
    rw [redsum_colsC]; norm_num)]
  rw [hmap]
  have hz : colSum (colsW (38 - 6/91*(533-t)) (120 - 10/91*(533-t)) (95 - 25/91*(533-t))
      (70 - 15/91*(533-t)) (70 - 10/91*(533-t)) (50 - 5/91*(533-t))
      (90 - 20/91*(533-t))) - t = 0 := by
    rw [colSum_colsW]; ring
  rw [if_neg (show ¬ (colSum (colsW (38 - 6/91*(533-t)) (120 - 10/91*(533-t))
      (95 - 25/91*(533-t)) (70 - 15/91*(533-t)) (70 - 10/91*(533-t))
      (50 - 5/91*(533-t)) (90 - 20/91*(533-t))) - t > 0) by rw [hz]; norm_num)]

lemma phase3_map_colsW (w1 w2 w3 w4 w5 w6 w7 : ℚ) :
    (colsW w1 w2 w3 w4 w5 w6 w7).map (fun c => { c with w := jsRound c.w }) =
      colsW (jsRound w1) (jsRound w2) (jsRound w3) (jsRound w4) (jsRound w5)
        (jsRound w6) (jsRound w7) := by
  simp [colsW]

lemma find_subject_colsW (w1 w2 w3 w4 w5 w6 w7 : ℚ) :
    (colsW w1 w2 w3 w4 w5 w6 w7).find? (fun c => c.key == "subject") =
      some ⟨"subject", "件名", w2⟩ := by
  simp [colsW, List.find?]

lemma phase3_colsW (w1 w2 w3 w4 w5 w6 w7 t : ℚ)
    (h : 80 ≤ t - (jsRound w1 + jsRound w3 + jsRound w4 + jsRound w5 +
      jsRound w6 + jsRound w7)) :
    colSum (phase3 (colsW w1 w2 w3 w4 w5 w6 w7) t) = t := by
  simp only [phase3, phase3_map_colsW]
  split_ifs with hd
  · rw [colSum_colsW] at hd ⊢
    linarith
  · rw [find_subject_colsW]
    have hupd : updateFirst (fun c => c.key == "subject")
        (fun c => { c with w := max 80 (c.w -
          (colSum (colsW (jsRound w1) (jsRound w2) (jsRound w3) (jsRound w4)
            (jsRound w5) (jsRound w6) (jsRound w7)) - t)) })
        (colsW (jsRound w1) (jsRound w2) (jsRound w3) (jsRound w4) (jsRound w5)
          (jsRound w6) (jsRound w7)) =
        colsW (jsRound w1) (max 80 (jsRound w2 -
          (colSum (colsW (jsRound w1) (jsRound w2) (jsRound w3) (jsRound w4)
            (jsRound w5) (jsRound w6) (jsRound w7)) - t)))
          (jsRound w3) (jsRound w4) (jsRound w5) (jsRound w6) (jsRound w7) := by
      simp [colsW, updateFirst]
    rw [hupd]
    have hX : (80:ℚ) ≤ jsRound w2 -
        (colSum (colsW (jsRound w1) (jsRound w2) (jsRound w3) (jsRound w4)
          (jsRound w5) (jsRound w6) (jsRound w7)) - t) := by
      rw [colSum_colsW]
      linarith
    rw [max_eq_right hX, colSum_colsW, colSum_colsW]
    ring

lemma fit_sum_A (t : ℚ) (hA : 623 ≤ t) : colSum (fitColumnsToWidth colsBase t) = t := by
  rw [fitColumnsToWidth, phase1_colsBase_no_overflow t hA,
    phase2_skip colsBase t (by rw [colsBase_sum]; linarith), colsBase_eq_colsW]
  apply phase3_colsW
  linarith [jsRound_le 38, jsRound_le 95, jsRound_le 70, jsRound_le 50, jsRound_le 90]

lemma fit_sum_B (t : ℚ) (hB1 : 533 ≤ t) (hB2 : t < 623) :
    colSum (fitColumnsToWidth colsBase t) = t := by
  rw [fitColumnsToWidth, phase1_colsBase_overflow t hB2,
    min_eq_right (show 623 - t ≤ (90:ℚ) by linarith)]
  rw [phase2_skip _ t (by rw [colSum_colsW]; linarith)]
  apply phase3_colsW
  linarith [jsRound_le 38, jsRound_le 95, jsRound_le 70, jsRound_le 50, jsRound_le 90,
    jsRound_le (210 - (623 - t))]

lemma fit_sum_C (t : ℚ) (h1 : 442 ≤ t) (h2 : t < 533) :
    colSum (fitColumnsToWidth colsBase t) = t := by
  rw [fitColumnsToWidth, phase1_colsBase_overflow t (by linarith),
    min_eq_left (show (90:ℚ) ≤ 623 - t by linarith),
    show (210:ℚ) - 90 = 120 by norm_num, phase2_colsC t h1 h2]
  apply phase3_colsW
  have j1 := jsRound_le (38 - 6/91*(533-t))
  have j3 := jsRound_le (95 - 25/91*(533-t))
  have j4 := jsRound_le (70 - 15/91*(533-t))
  have j5 := jsRound_le (70 - 10/91*(533-t))
  have j6 := jsRound_le (50 - 5/91*(533-t))
  have j7 := jsRound_le (90 - 20/91*(533-t))
  linarith

lemma fit_sum_aux (t : ℚ) (h : 442 ≤ t) : colSum (fitColumnsToWidth colsBase t) = t := by
  rcases le_or_lt 623 t with hA | hAB
  · exact fit_sum_A t hA
  · rcases le_or_lt 533 t with hB | hC
    · exact fit_sum_B t hB hAB
    · exact fit_sum_C t h hC

/-- C1: for the fixed seven-column base sequence and every target width
at least 442 (the sum of the documented per-column minimum widths
32+110+70+55+60+45+70), `fitColumnsToWidth` returns columns whose widths
sum exactly to the target; in particular the column set of every list-mode
document sums exactly to the usable page width 595.28 − 48 − 48. -/
theorem fitColumnsToWidth_sum_eq :
    (∀ t : ℚ, 442 ≤ t → colSum (fitColumnsToWidth colsBase t) = t) ∧
    colSum listCols = availableW := by
  refine ⟨fit_sum_aux, ?_⟩
  rw [listCols]
  exact fit_sum_aux availableW (by rw [availableW, A4w]; norm_num)

/-- Witness for C1 at the concrete target width 500. -/
theorem fitColumnsToWidth_sum_eq_witness :
    (442:ℚ) ≤ 500 ∧ colSum (fitColumnsToWidth colsBase 500) = 500 :=
  ⟨by norm_num, fitColumnsToWidth_sum_eq.1 500 (by norm_num)⟩

lemma subjectW_colsW (w1 w2 w3 w4 w5 w6 w7 : ℚ) :
    subjectW (colsW w1 w2 w3 w4 w5 w6 w7) = w2 := by
  rw [subjectW, find_subject_colsW]
  rfl

/-- C4 (amended): whenever the base column widths sum exceeds the target
width, phase 1 of the column squeeze reduces the subject column by the
overflow amount or until it reaches the phase-1 floor of 120 units (the
documented per-column minimum of 110 for `subject` is enforced only in
phase 2): after phase 1 the subject width equals
`max(120, baseSubjectWidth − overflow)`. -/
theorem phase1_subject_floor :
    ∀ t : ℚ, 0 < colSum colsBase - t →
      subjectW (phase1 colsBase t) = max 120 (210 - (colSum colsBase - t)) := by
  intro t h
  rw [colsBase_sum] at h ⊢
  rw [phase1_colsBase_overflow t (by linarith), subjectW_colsW]
  rcases le_or_lt (623 - t) 90 with hle | hlt
  · rw [min_eq_right hle, max_eq_right (by linarith)]
  · rw [min_eq_left (by linarith), max_eq_left (by linarith)]
    norm_num

/-- Counterexample to C4 as stated: at the actual list-mode target width
499.28 the overflow is 123.72, so the claimed formula
`max(110, 210 − overflow)` gives 110, but phase 1 leaves the subject
column at 120. -/
theorem phase1_subject_min110_cex :
    subjectW (phase1 colsBase (49928/100)) ≠
      max 110 (210 - (colSum colsBase - 49928/100)) := by
  rw [phase1_colsBase_overflow (49928/100) (by norm_num), subjectW_colsW,
    colsBase_sum, min_eq_left (by norm_num), max_eq_left (by norm_num)]
  norm_num

/-- Witness for C4 (amended) at the actual list-mode target width 499.28. -/
theorem phase1_subject_floor_witness :
    0 < colSum colsBase - 49928/100 ∧
      subjectW (phase1 colsBase (49928/100)) =
        max 120 (210 - (colSum colsBase - 49928/100)) :=
  ⟨by rw [colsBase_sum]; norm_num,
   phase1_subject_floor (49928/100) (by rw [colsBase_sum]; norm_num)⟩

/-! ## Text layout lemmas -/

lemma widthOf_nil (font : Char → ℚ) : widthOf font [] = 0 := rfl

lemma widthOf_append (font : Char → ℚ) (a b : List Char) :
    widthOf font (a ++ b) = widthOf font a + widthOf font b := by
  simp [widthOf]

lemma widthOf_nonneg (font : Char → ℚ) (hf : ∀ c, 0 ≤ font c) (s : List Char) :
    0 ≤ widthOf font s := by
  refine List.sum_nonneg ?_
  intro x hx
  obtain ⟨c, _, rfl⟩ := List.mem_map.mp hx
  exact hf c

lemma widthOf_take_mono (font : Char → ℚ) (hf : ∀ c, 0 ≤ font c)
    (s : List Char) {i j : ℕ} (hij : i ≤ j) :
    widthOf font (s.take i) ≤ widthOf font (s.take j) := by
  have hsplit : s.take j = s.take i ++ (s.take j).drop i := by
    conv_lhs => rw [← List.take_append_drop i (s.take j)]
    rw [List.take_take, min_eq_left hij]
  rw [hsplit, widthOf_append]
  have := widthOf_nonneg font hf ((s.take j).drop i)
  linarith

lemma clipGo_spec (s : List Char) (font : Char → ℚ) (maxWidth : ℚ)
    (hf : ∀ c, 0 ≤ font c) :
    ∀ (fuel lo hi : ℕ), hi - lo ≤ fuel → lo ≤ hi → hi ≤ s.length →
      widthOf font (s.take lo ++ [ell]) ≤ maxWidth →
      (∀ j, hi < j → j ≤ s.length → ¬ widthOf font (s.take j ++ [ell]) ≤ maxWidth) →
      lo ≤ clipGo s font maxWidth lo hi fuel ∧
        clipGo s font maxWidth lo hi fuel ≤ hi ∧
        widthOf font (s.take (clipGo s font maxWidth lo hi fuel) ++ [ell]) ≤ maxWidth ∧
        (∀ j, j ≤ s.length → widthOf font (s.take j ++ [ell]) ≤ maxWidth →
          j ≤ clipGo s font maxWidth lo hi fuel) := by
  intro fuel
  induction fuel with
  | zero =>
    intro lo hi hfuel hlohi hhi hlo hup
    have heq2 : lo = hi := by omega
    refine ⟨le_refl _, by simp only [clipGo]; omega, by simpa [clipGo] using hlo, ?_⟩
    intro j hj hwj
    by_contra hgt
    simp only [clipGo] at hgt
    exact hup j (by omega) hj hwj
  | succ fuel ih =>
    intro lo hi hfuel hlohi hhi hlo hup
    by_cases hlt : lo < hi
    · rw [clipGo]
      simp only [if_pos hlt]
      set mid := (lo + hi + 1) / 2 with hmid
      have hmid1 : lo < mid := by omega
      have hmid2 : mid ≤ hi := by omega
      by_cases hw : widthOf font (s.take mid ++ [ell]) ≤ maxWidth
      · rw [if_pos hw]
        obtain ⟨r1, r2, r3, r4⟩ := ih mid hi (by omega) hmid2 hhi hw hup
        exact ⟨by omega, r2, r3, r4⟩
      · rw [if_neg hw]
        have hup2 : ∀ j, mid - 1 < j → j ≤ s.length →
            ¬ widthOf font (s.take j ++ [ell]) ≤ maxWidth := by
          intro j hj hjs hwj
          rcases le_or_lt j hi with hjhi | hjhi
          · -- mid ≤ j ≤ hi : monotonicity pushes the failure at mid up to j
            have hmono : widthOf font (s.take mid ++ [ell]) ≤
                widthOf font (s.take j ++ [ell]) := by
              rw [widthOf_append, widthOf_append]
              have := widthOf_take_mono font hf s (show mid ≤ j by omega)
              linarith
            exact hw (le_trans hmono hwj)
          · exact hup j hjhi hjs hwj
        obtain ⟨r1, r2, r3, r4⟩ := ih lo (mid - 1) (by omega) (by omega) (by omega) hlo hup2
        exact ⟨r1, by omega, r3, r4⟩
    · rw [clipGo]
      simp only [if_neg hlt]
      refine ⟨le_refl _, by omega, hlo, ?_⟩
      intro j hj hwj
      by_contra hgt
      exact hup j (by omega) hj hwj

lemma clipToWidth_of_fits (text : List Char) (font : Char → ℚ) (maxWidth : ℚ)
    (h : widthOf font text ≤ maxWidth) : clipToWidth text font maxWidth = text := by
  rw [clipToWidth]
  split_ifs with h0
  · exact h0.symm
  · rfl

lemma clipToWidth_clip (text : List Char) (font : Char → ℚ) (maxWidth : ℚ)
    (hf : ∀ c, 0 ≤ font c) (hell : widthOf font [ell] ≤ maxWidth)
    (hnofit : ¬ widthOf font text ≤ maxWidth) :
    ∃ k, k ≤ text.length ∧ clipToWidth text font maxWidth = text.take k ++ [ell] ∧
      widthOf font (text.take k ++ [ell]) ≤ maxWidth ∧
      (∀ j, j ≤ text.length → widthOf font (text.take j ++ [ell]) ≤ maxWidth → j ≤ k) := by
  have htne : text ≠ [] := by
    intro h
    apply hnofit
    rw [h, widthOf_nil]
    have h2 := widthOf_nonneg font hf [ell]
    linarith
  obtain ⟨r1, r2, r3, r4⟩ := clipGo_spec text font maxWidth hf text.length 0 text.length
    (by omega) (by omega) (le_refl _) (by simpa using hell)
    (fun j hj hjs => absurd hjs (by omega))
  refine ⟨clipGo text font maxWidth 0 text.length text.length, r2, ?_, r3, r4⟩
  rw [clipToWidth, if_neg htne, if_neg hnofit]

lemma clipToWidth_width_le (text : List Char) (font : Char → ℚ) (maxWidth : ℚ)
    (hf : ∀ c, 0 ≤ font c) (hell : widthOf font [ell] ≤ maxWidth) :
    widthOf font (clipToWidth text font maxWidth) ≤ maxWidth := by
  by_cases hfit : widthOf font text ≤ maxWidth
  · rw [clipToWidth_of_fits text font maxWidth hfit]
    exact hfit
  · obtain ⟨k, _, heq2, hle, _⟩ := clipToWidth_clip text font maxWidth hf hell hfit
    rw [heq2]
    exact hle

/-- C6: for every string, font and width budget at least the measured width
of the ellipsis glyph: a string that already fits is returned unchanged;
otherwise the result is the longest prefix such that `prefix + "…"` fits,
followed by the ellipsis; and the result's measured width never exceeds the
budget. -/
theorem clipToWidth_correct (text : List Char) (font : Char → ℚ) (maxWidth : ℚ)
    (hf : ∀ c, 0 ≤ font c) (hell : widthOf font [ell] ≤ maxWidth) :
    (widthOf font text ≤ maxWidth → clipToWidth text font maxWidth = text) ∧
    (¬ widthOf font text ≤ maxWidth →
      ∃ k, k ≤ text.length ∧ clipToWidth text font maxWidth = text.take k ++ [ell] ∧
        widthOf font (text.take k ++ [ell]) ≤ maxWidth ∧
        (∀ j, j ≤ text.length → widthOf font (text.take j ++ [ell]) ≤ maxWidth → j ≤ k)) ∧
    widthOf font (clipToWidth text font maxWidth) ≤ maxWidth :=
  ⟨clipToWidth_of_fits text font maxWidth,
   clipToWidth_clip text font maxWidth hf hell,
   clipToWidth_width_le text font maxWidth hf hell⟩

/-- Witness for C6 at the one-unit font, budget 2 and input `"abc"`. -/
theorem clipToWidth_correct_witness :
    (∀ c, 0 ≤ wOne c) ∧ widthOf wOne [ell] ≤ 2 ∧
    ((widthOf wOne ['a', 'b', 'c'] ≤ 2 →
        clipToWidth ['a', 'b', 'c'] wOne 2 = ['a', 'b', 'c']) ∧
      (¬ widthOf wOne ['a', 'b', 'c'] ≤ 2 →
        ∃ k, k ≤ (['a', 'b', 'c'] : List Char).length ∧
          clipToWidth ['a', 'b', 'c'] wOne 2 = (['a', 'b', 'c'] : List Char).take k ++ [ell] ∧
          widthOf wOne ((['a', 'b', 'c'] : List Char).take k ++ [ell]) ≤ 2 ∧
          (∀ j, j ≤ (['a', 'b', 'c'] : List Char).length →
            widthOf wOne ((['a', 'b', 'c'] : List Char).take j ++ [ell]) ≤ 2 → j ≤ k)) ∧
      widthOf wOne (clipToWidth ['a', 'b', 'c'] wOne 2) ≤ 2) :=
  ⟨fun c => by norm_num [wOne], by norm_num [widthOf, wOne],
   clipToWidth_correct ['a', 'b', 'c'] wOne 2 (fun c => by norm_num [wOne])
     (by norm_num [widthOf, wOne])⟩

/-- C10: `clipToWidth` is idempotent — its result always fits the budget,
so a second clip takes the already-fits branch and returns it unchanged. -/
theorem clipToWidth_idem (text : List Char) (font : Char → ℚ) (maxWidth : ℚ)
    (hf : ∀ c, 0 ≤ font c) (hell : widthOf font [ell] ≤ maxWidth) :
    clipToWidth (clipToWidth text font maxWidth) font maxWidth =
      clipToWidth text font maxWidth :=
  clipToWidth_of_fits _ font maxWidth (clipToWidth_width_le text font maxWidth hf hell)

/-- Witness for C10 at the one-unit font, budget 1 and input `"ab"`. -/
theorem clipToWidth_idem_witness :
    (∀ c, 0 ≤ wOne c) ∧ widthOf wOne [ell] ≤ 1 ∧
    clipToWidth (clipToWidth ['a', 'b'] wOne 1) wOne 1 =
      clipToWidth ['a', 'b'] wOne 1 :=
  ⟨fun c => by norm_num [wOne], by norm_num [widthOf, wOne],
   clipToWidth_idem ['a', 'b'] wOne 1 (fun c => by norm_num [wOne])
     (by norm_num [widthOf, wOne])⟩

lemma foldl_wrapStep_ne (font : Char → ℚ) (maxWidth : ℚ) :
    ∀ (para : List Char) (st : List (List Char) × List Char), para ≠ [] →
      (para.foldl (wrapStep font maxWidth) st).2 ≠ [] := by
  intro para
  induction para with
  | nil => intro st h; exact absurd rfl h
  | cons c rest ih =>
    intro st _
    rw [List.foldl_cons]
    rcases eq_or_ne rest [] with hr | hr
    · subst hr
      simp only [List.foldl_nil, wrapStep]
      split_ifs <;> simp
    · exact ih (wrapStep font maxWidth st c) hr

lemma foldl_wrapStep_inv (font : Char → ℚ) (maxWidth : ℚ) :
    ∀ (para : List Char) (st : List (List Char) × List Char),
      (∀ c ∈ para, font c ≤ maxWidth) →
      widthOf font st.2 ≤ maxWidth →
      (∀ l ∈ st.1, widthOf font l ≤ maxWidth) →
      widthOf font (para.foldl (wrapStep font maxWidth) st).2 ≤ maxWidth ∧
        ∀ l ∈ (para.foldl (wrapStep font maxWidth) st).1, widthOf font l ≤ maxWidth := by
  intro para
  induction para with
  | nil =>
    intro st _ h2 h3
    exact ⟨h2, h3⟩
  | cons c rest ih =>
    intro st hc h2 h3
    rw [List.foldl_cons]
    apply ih
    · intro x hx
      exact hc x (List.mem_cons_of_mem c hx)
    · simp only [wrapStep]
      split_ifs with hw
      · exact hw
      · simpa [widthOf] using hc c (List.mem_cons_self _ _)
      · simpa [widthOf] using hc c (List.mem_cons_self _ _)
    · simp only [wrapStep]
      split_ifs with hw hemp
      · exact h3
      · exact h3
      · intro l hl
        rcases List.mem_append.mp hl with h | h
        · exact h3 l h
        · rw [List.mem_singleton] at h
          subst h
          exact h2

lemma wrapPara_ne (para : List Char) (font : Char → ℚ) (maxWidth : ℚ)
    (h : para ≠ []) : wrapPara para font maxWidth ≠ [] := by
  rw [wrapPara]
  have h2 := foldl_wrapStep_ne font maxWidth para ([], []) h
  rw [if_neg h2]
  simp

lemma wrapPara_width (para : List Char) (font : Char → ℚ) (maxWidth : ℚ)
    (h0 : 0 ≤ maxWidth) (hc : ∀ c ∈ para, font c ≤ maxWidth) :
    ∀ l ∈ wrapPara para font maxWidth, widthOf font l ≤ maxWidth := by
  have hinv := foldl_wrapStep_inv font maxWidth para ([], []) hc
    (by simpa [widthOf] using h0) (by simp)
  intro l hl
  rw [wrapPara] at hl
  split_ifs at hl with hfin
  · exact hinv.2 l hl
  · rcases List.mem_append.mp hl with h | h
    · exact hinv.2 l h
    · rw [List.mem_singleton] at h
      subst h
      exact hinv.1

lemma mem_normNl : ∀ (s : List Char), ∀ c ∈ normNl s, c ∈ s := by
  intro s
  induction s using normNl.induct with
  | case1 =>
    intro c hc
    simp [normNl] at hc
  | case2 c0 =>
    intro c hc
    simpa [normNl] using hc
  | case3 c1 c2 rest hcond ih =>
    intro c hc
    rw [normNl, if_pos hcond] at hc
    rcases List.mem_cons.mp hc with h | h
    · subst h
      simp [hcond.2]
    · simp [ih c h]
  | case4 c1 c2 rest hcond ih =>
    intro c hc
    rw [normNl, if_neg hcond] at hc
    rcases List.mem_cons.mp hc with h | h
    · subst h
      simp
    · simp [ih c h]

lemma splitNl_ne_nil (s : List Char) : splitNl s ≠ [] := by
  cases s with
  | nil => simp [splitNl]
  | cons c rest =>
    rw [splitNl]
    split_ifs
    · simp
    · cases h : splitNl rest <;> simp

lemma mem_splitNl : ∀ (s : List Char), ∀ l ∈ splitNl s, ∀ c ∈ l, c ∈ s := by
  intro s
  induction s with
  | nil =>
    intro l hl c hc
    rw [splitNl] at hl
    simp at hl
    subst hl
    simp at hc
  | cons a rest ih =>
    intro l hl c hc
    rw [splitNl] at hl
    split_ifs at hl with ha
    · rcases List.mem_cons.mp hl with h | h
      · subst h
        simp at hc
      · exact List.mem_cons_of_mem a (ih l h c hc)
    · rcases hsp : splitNl rest with _ | ⟨l0, ls⟩
      · rw [hsp] at hl
        simp at hl
        subst hl
        rw [List.mem_singleton] at hc
        subst hc
        exact (List.mem_cons_self _ _)
      · rw [hsp] at hl
        rcases List.mem_cons.mp hl with h | h
        · subst h
          rcases List.mem_cons.mp hc with h2 | h2
          · subst h2
            exact (List.mem_cons_self _ _)
          · have hm : l0 ∈ splitNl rest := by
              rw [hsp]; exact (List.mem_cons_self _ _)
            exact List.mem_cons_of_mem a (ih l0 hm c h2)
        · have hm : l ∈ splitNl rest := by
            rw [hsp]; exact List.mem_cons_of_mem _ h
          exact List.mem_cons_of_mem a (ih l hm c hc)

/-- C7: for every input string and width budget that is nonnegative and at
least the width of every single character of the string, `wrapText` returns
a non-empty sequence of lines each of whose measured widths is at most the
budget, and an empty input yields a single empty line. -/
theorem wrapText_spec (text : List Char) (font : Char → ℚ) (maxWidth : ℚ)
    (h0 : 0 ≤ maxWidth) (hc : ∀ c ∈ text, font c ≤ maxWidth) :
    wrapText text font maxWidth ≠ [] ∧
    (∀ l ∈ wrapText text font maxWidth, widthOf font l ≤ maxWidth) ∧
    (text = [] → wrapText text font maxWidth = [[]]) := by
  by_cases ht : text = []
  · subst ht
    refine ⟨by simp [wrapText], ?_, fun _ => by simp [wrapText]⟩
    intro l hl
    simp [wrapText] at hl
    subst hl
    simpa [widthOf] using h0
  · refine ⟨?_, ?_, fun he => absurd he ht⟩
    · rw [wrapText, if_neg ht]
      obtain ⟨p, ps, hps⟩ := List.exists_cons_of_ne_nil (splitNl_ne_nil (normNl text))
      rw [hps, List.map_cons, List.flatten_cons]
      intro hcontra
      rcases List.append_eq_nil.mp hcontra with ⟨h1, _⟩
      split_ifs at h1 with hp
      exact wrapPara_ne p font maxWidth hp h1
    · intro l hl
      rw [wrapText, if_neg ht] at hl
      rw [List.mem_flatten] at hl
      obtain ⟨g, hg, hlg⟩ := hl
      rw [List.mem_map] at hg
      obtain ⟨para, hpara, rfl⟩ := hg
      split_ifs at hlg with hp
      · simp at hlg
        subst hlg
        simpa [widthOf] using h0
      · refine wrapPara_width para font maxWidth h0 ?_ l hlg
        intro c hcp
        exact hc c (mem_normNl text c (mem_splitNl (normNl text) para hpara c hcp))

/-- Witness for C7 at the one-unit font, budget 2 and input `"abc"`. -/
theorem wrapText_spec_witness :
    (0:ℚ) ≤ 2 ∧ (∀ c ∈ (['a', 'b', 'c'] : List Char), wOne c ≤ 2) ∧
    (wrapText ['a', 'b', 'c'] wOne 2 ≠ [] ∧
      (∀ l ∈ wrapText ['a', 'b', 'c'] wOne 2, widthOf wOne l ≤ 2) ∧
      ((['a', 'b', 'c'] : List Char) = [] → wrapText ['a', 'b', 'c'] wOne 2 = [[]])) :=
  ⟨by norm_num, by intro c _; norm_num [wOne],
   wrapText_spec ['a', 'b', 'c'] wOne 2 (by norm_num) (by intro c _; norm_num [wOne])⟩

/-! ## Pagination lemmas -/

/-- C2: a detail-mode document contains exactly one page per input record,
unconditionally — including zero records yielding a zero-page document. -/
theorem buildDetailPdf_page_count (font : Char → ℚ) (tickets : List Ticket) :
    (buildDetailPdf font tickets).length = tickets.length := by
  simp [buildDetailPdf]

lemma buildListRowsGo_small (font : Char → ℚ) :
    ∀ (ts : List Ticket) (k : ℕ) (cur : List (List (List Char)))
      (acc : List (List (List (List Char)))),
      ts.length + k ≤ 36 →
      buildListRowsGo font ts (listStartY - listRowH * k) cur acc =
        acc ++ [cur ++ ts.map (listRowCells font)] := by
  intro ts
  induction ts with
  | nil =>
    intro k cur acc _
    simp [buildListRowsGo]
  | cons t ts ih =>
    intro k cur acc h
    rw [List.length_cons] at h
    have hk : (k:ℚ) ≤ 35 := by
      have : k ≤ 35 := by omega
      exact_mod_cast this
    rw [buildListRowsGo]
    rw [if_neg (by
      simp only [listStartY, listRowH, listMarginBottom, A4h]
      intro hcon
      linarith)]
    have hy : listStartY - listRowH * (k:ℚ) - listRowH =
        listStartY - listRowH * ((k+1 : ℕ):ℚ) := by
      push_cast
      ring
    rw [hy, ih (k+1) (cur ++ [listRowCells font t]) acc (by omega)]
    simp

lemma buildListPages_le36 (font : Char → ℚ) (tickets : List Ticket)
    (h : tickets.length ≤ 36) :
    buildListPages font tickets = [tickets.map (listRowCells font)] := by
  have h0 := buildListRowsGo_small font tickets 0 [] [] (by omega)
  simpa [buildListPages] using h0

/-- C3 (amended): at the defined page geometry a list page holds 36 rows
(`(709.89 − 52) / 18` rounds down to 36), so 12 records produce exactly
one page, whose footer reads "page 1 / 1". -/
theorem buildListPdf_12 (font : Char → ℚ) (tickets : List Ticket)
    (h : tickets.length = 12) :
    (buildListPdf font tickets).length = 1 ∧
      ∀ p ∈ buildListPdf font tickets, p.footerRight = "page 1 / 1" := by
  have hp := buildListPages_le36 font tickets (by omega)
  have hlist : buildListPdf font tickets =
      [{ rows := tickets.map (listRowCells font), footerRight := "page 1 / 1" }] := by
    rw [buildListPdf, hp]
    simp only [List.enum, List.enumFrom, List.map_cons, List.map_nil,
      List.length_singleton]
    rfl
  rw [hlist]
  refine ⟨rfl, ?_⟩
  intro p hpm
  rw [List.mem_singleton] at hpm
  subst hpm
  rfl

/-- Counterexample to C3 as stated: building from exactly 12 records in
list mode at the defined geometry produces one page, not two. -/
theorem buildListPdf_12_cex :
    (buildListPdf wOne sample12).length = 1 ∧
      (buildListPdf wOne sample12).length ≠ 2 := by
  have hp := buildListPages_le36 wOne sample12 (by simp [sample12])
  have hlen : (buildListPdf wOne sample12).length = 1 := by
    rw [buildListPdf, hp]
    rfl
  exact ⟨hlen, by rw [hlen]; omega⟩

/-- Witness for C3 (amended) at twelve concrete records. -/
theorem buildListPdf_12_witness :
    sample12.length = 12 ∧
      ((buildListPdf wOne sample12).length = 1 ∧
        ∀ p ∈ buildListPdf wOne sample12, p.footerRight = "page 1 / 1") :=
  ⟨by simp [sample12], buildListPdf_12 wOne sample12 (by simp [sample12])⟩

/-! ## Delimited-text export lemmas -/

lemma flatMap_quote_id (v : List Char) (h : ∀ c ∈ v, c ≠ '"') :
    (v.flatMap fun c => if c = '"' then ['"', '"'] else [c]) = v := by
  induction v with
  | nil => rfl
  | cons c cs ih =>
    rw [List.flatMap_cons, if_neg (h c (List.mem_cons_self _ _))]
    rw [ih fun x hx => h x (List.mem_cons_of_mem c hx)]
    rfl

lemma csvEscape_eq_spec (v : List Char) : csvEscape v = csvEscapeSpec v := by
  rw [csvEscape, csvEscapeSpec]
  split_ifs with h
  · rfl
  · refine flatMap_quote_id v ?_
    intro c hc hq
    apply h
    rw [List.any_eq_true]
    exact ⟨c, hc, by simp [hq]⟩

/-- C5 (amended): the delimited-text export is the byte-order marker
followed by the header line and one line per record, fields in the code's
order — identifier, created-at, subject, status, priority, assignee
(trimmed), customer, updated-at — each escaped by the quote-on-special-
character rule (quote doubled, field wrapped in quotes exactly when it
contains a quote, comma, or line break), lines joined by CRLF. -/
theorem csvExportContent_spec (tickets : List Ticket) :
    csvExportContent tickets =
      bom :: List.intercalate ['\r', '\n'] (csvHeaderLine :: tickets.map csvRowSpec) := by
  rw [csvExportContent, toCsv, List.map_cons]
  congr 2
  congr 1
  rw [List.map_map]
  refine List.map_congr_left ?_
  intro t _
  show List.intercalate [','] ((csvCols.map fun c => c.2 t).map csvEscape) = csvRowSpec t
  rw [csvRowSpec]
  congr 1
  show ([intToChars t.no, t.createdAt, t.subject, t.status, t.priority,
    jsTrim (t.assignee.getD []), t.customerName, t.updatedAt].map csvEscape) = _
  simp only [List.map_cons, List.map_nil, csvEscape_eq_spec]

/-- Counterexample to C5 as stated: at a record with pairwise distinct
fields, the produced export line is not the line whose fields appear in
the claimed order identifier, subject, customer, assignee, status,
priority, created-at, updated-at (the code emits identifier, created-at,
subject, status, priority, assignee, customer, updated-at). -/
theorem csv_order_cex :
    List.intercalate [','] ((csvCols.map fun c => c.2 sampleTicket).map csvEscape) ≠
      List.intercalate [','] ([intToChars sampleTicket.no, sampleTicket.subject,
        sampleTicket.customerName, jsTrim (sampleTicket.assignee.getD []),
        sampleTicket.status, sampleTicket.priority, sampleTicket.createdAt,
        sampleTicket.updatedAt].map csvEscape) := by
  decide

/-! ## Asset degradation lemmas -/

lemma tryLoadTtf_fail (env : AssetEnv) (url : String) (h : env.fetch url = .fail) :
    tryLoadTtf env url = .ok .helvetica := by
  rw [tryLoadTtf]
  simp [fetchArrayBuffer, h, Bind.bind, Except.bind]

lemma tryLoadTtf_ok (env : AssetEnv) (url : String) (b : List ℕ)
    (h : env.fetch url = .ok b) :
    tryLoadTtf env url =
      .ok (if env.ttfOk b then FontHandle.custom b else FontHandle.helvetica) := by
  rw [tryLoadTtf]
  by_cases ht : env.ttfOk b <;>
    simp [fetchArrayBuffer, h, ht, Bind.bind, Except.bind, pure, Except.pure]

lemma tryLoadImage_none (env : AssetEnv) : tryLoadImage env none = .ok none := rfl

lemma tryLoadImage_fail (env : AssetEnv) (u : String) (h : env.fetch u = .fail) :
    tryLoadImage env (some u) = .ok none := by
  rw [tryLoadImage]
  simp [fetchArrayBuffer, h, Bind.bind, Except.bind]

lemma tryLoadImage_ok (env : AssetEnv) (u : String) (b : List ℕ)
    (h : env.fetch u = .ok b) :
    tryLoadImage env (some u) =
      .ok (if env.pngOk b then some (ImageHandle.png b)
        else if env.jpgOk b then some (ImageHandle.jpg b) else none) := by
  rw [tryLoadImage]
  by_cases hp : env.pngOk b <;> by_cases hj : env.jpgOk b <;>
    simp [fetchArrayBuffer, h, hp, hj, Bind.bind, Except.bind, pure, Except.pure]

lemma pdfSave_pos (ps : List (List ℕ)) : 0 < (pdfSave ps).length := by
  rw [pdfSave, List.length_append]
  have h8 : ("%PDF-1.7".toList.map Char.toNat).length = 8 := rfl
  omega

/-- C8: for every font-URL outcome, `tryLoadTtf` returns a font and never
raises, and on fetch failure or malformed bytes it returns the built-in
Helvetica fallback; for every image-URL outcome, `tryLoadImage` returns and
never raises, and on no URL, fetch failure or undecodable bytes it returns
absent; and under any environment the document build completes with an
output byte stream of positive length. -/
theorem asset_degradation (env : AssetEnv) (fontUrl : String) (imgUrl : Option String)
    (tickets : List Ticket) (opts : TicketPdfOptions) (isoDate : String) :
    (∃ f, tryLoadTtf env fontUrl = .ok f) ∧
    (fontLoadFails env fontUrl = true →
      tryLoadTtf env fontUrl = .ok FontHandle.helvetica) ∧
    (∃ r, tryLoadImage env imgUrl = .ok r) ∧
    (imageLoadFails env imgUrl = true → tryLoadImage env imgUrl = .ok none) ∧
    0 < (downloadTicketsPdf env tickets opts isoDate).2.length := by
  refine ⟨?_, ?_, ?_, ?_, ?_⟩
  · rcases h : env.fetch fontUrl with b | _
    · exact ⟨_, tryLoadTtf_ok env fontUrl b h⟩
    · exact ⟨_, tryLoadTtf_fail env fontUrl h⟩
  · intro hfail
    rw [fontLoadFails] at hfail
    rcases h : env.fetch fontUrl with b | _
    · rw [h] at hfail
      simp at hfail
      rw [tryLoadTtf_ok env fontUrl b h, if_neg (by simp [hfail])]
    · exact tryLoadTtf_fail env fontUrl h
  · rcases imgUrl with _ | u
    · exact ⟨_, tryLoadImage_none env⟩
    · rcases h : env.fetch u with b | _
      · exact ⟨_, tryLoadImage_ok env u b h⟩
      · exact ⟨_, tryLoadImage_fail env u h⟩
  · intro hfail
    rcases imgUrl with _ | u
    · exact tryLoadImage_none env
    · rw [imageLoadFails] at hfail
      rcases h : env.fetch u with b | _
      · rw [h] at hfail
        simp at hfail
        rw [tryLoadImage_ok env u b h, if_neg (by simp [hfail.1]),
          if_neg (by simp [hfail.2])]
      · exact tryLoadImage_fail env u h
  · simp only [downloadTicketsPdf]
    cases hL : opts.layout.getD Layout.list <;> simp [hL, pdfSave_pos]

/-- Witness for C8: an environment in which every fetch fails and every
decode is rejected. -/
theorem asset_degradation_witness :
    fontLoadFails failEnv "/f.ttf" = true ∧
    imageLoadFails failEnv (some "/l.png") = true ∧
    ((∃ f, tryLoadTtf failEnv "/f.ttf" = Except.ok f) ∧
      (fontLoadFails failEnv "/f.ttf" = true →
        tryLoadTtf failEnv "/f.ttf" = Except.ok FontHandle.helvetica) ∧
      (∃ r, tryLoadImage failEnv (some "/l.png") = Except.ok r) ∧
      (imageLoadFails failEnv (some "/l.png") = true →
        tryLoadImage failEnv (some "/l.png") = Except.ok none) ∧
      0 < (downloadTicketsPdf failEnv [] {} "2026-01-01").2.length) :=
  ⟨rfl, rfl, asset_degradation failEnv "/f.ttf" (some "/l.png") [] {} "2026-01-01"⟩

/-! ## Filename convention lemmas -/

/-- C9 (amended): when no filename is supplied, `downloadTicketsPdf`
suggests `tickets-<date>-list.pdf` in list mode and
`tickets-<date>-detail.pdf` in detail mode regardless of the record count,
and the single-ticket entry point `downloadTicketPdf` suggests
`ticket-<id>-<date>.pdf`. -/
theorem filename_convention (opts : TicketPdfOptions) (isoDate : String)
    (env : AssetEnv) (tickets : List Ticket) (t : Ticket)
    (hf : opts.filename = none) :
    (opts.layout.getD .list = .list →
      (downloadTicketsPdf env tickets opts isoDate).1 =
        "tickets-" ++ isoDate ++ "-list.pdf") ∧
    (opts.layout.getD .list = .detail →
      (downloadTicketsPdf env tickets opts isoDate).1 =
        "tickets-" ++ isoDate ++ "-detail.pdf") ∧
    (downloadTicketPdf env t opts isoDate).1 =
      "ticket-" ++ (if (intToChars t.no).asString = "" then "x"
        else (intToChars t.no).asString) ++ "-" ++ isoDate ++ ".pdf" := by
  refine ⟨?_, ?_, ?_⟩
  · intro hl
    simp only [downloadTicketsPdf, ticketsPdfFilename, hf, hl, layoutStr]
    simp [String.append_assoc]
  · intro hl
    simp only [downloadTicketsPdf, ticketsPdfFilename, hf, hl, layoutStr]
    simp [String.append_assoc]
  · simp only [downloadTicketPdf, downloadTicketsPdf, ticketsPdfFilename,
      ticketPdfFilename, hf]

/-- Counterexample to C9 as stated: `downloadTicketsPdf` called with one
record and detail layout produces a detail-mode document of exactly one
record, yet its suggested filename is the tickets-…-detail name, not
`ticket-<id>-<date>.pdf`. -/
theorem filename_single_detail_cex :
    (buildDetailPdf (failEnv.metrics FontHandle.helvetica) [sampleTicket]).length = 1 ∧
    (downloadTicketsPdf failEnv [sampleTicket]
      { layout := some Layout.detail } "2026-10-12").1 = "tickets-2026-10-12-detail.pdf" ∧
    (downloadTicketsPdf failEnv [sampleTicket]
      { layout := some Layout.detail } "2026-10-12").1 ≠ "ticket-7-2026-10-12.pdf" := by
  refine ⟨by simp [buildDetailPdf], rfl, ?_⟩
  have h2 : (downloadTicketsPdf failEnv [sampleTicket]
      { layout := some Layout.detail } "2026-10-12").1 =
        "tickets-2026-10-12-detail.pdf" := rfl
  rw [h2]
  decide

/-- Witness for C9 (amended) at concrete options, date and ticket. -/
theorem filename_convention_witness :
    ({ layout := some Layout.list } : TicketPdfOptions).filename = none ∧
    ((({ layout := some Layout.list } : TicketPdfOptions).layout.getD .list = .list →
      (downloadTicketsPdf failEnv [] { layout := some Layout.list } "2026-10-12").1 =
        "tickets-" ++ "2026-10-12" ++ "-list.pdf") ∧
    (({ layout := some Layout.list } : TicketPdfOptions).layout.getD .list = .detail →
      (downloadTicketsPdf failEnv [] { layout := some Layout.list } "2026-10-12").1 =
        "tickets-" ++ "2026-10-12" ++ "-detail.pdf") ∧
    (downloadTicketPdf failEnv sampleTicket { layout := some Layout.list } "2026-10-12").1 =
      "ticket-" ++ (if (intToChars sampleTicket.no).asString = "" then "x"
        else (intToChars sampleTicket.no).asString) ++ "-" ++ "2026-10-12" ++ ".pdf") :=
  ⟨rfl, filename_convention { layout := some Layout.list } "2026-10-12" failEnv []
    sampleTicket rfl⟩

end TicketPdf
